import Mathlib

/-!
Verification of the `flagon` embedded document store core.

A shallow embedding, in Lean 4, of the core of the `flagon` repository:
the field codec (`field.go`), the entity-type schema registry and entity
keys (`entity.go`), namespaces and name validation (`namespace.go`,
`names.go`), and the storage facade (`internal/storage/db.go`).

Bytes are modelled as natural numbers (with `% 256` where the Go code
truncates), byte streams as `List Nat` in `bytes.Reader` style, Go's
`(value, error)` returns as explicit result structures, and the mutation
of a method receiver as explicit state passing.
-/

/-- Error values observable in the modelled code: `io.EOF`,
`io.ErrUnexpectedEOF`, the errors of `time.Time.UnmarshalBinary`, the
named errors of `errors.go`, those of `internal/storage`, and an
abstract constructor for environment-supplied errors (filesystem or
BoltDB failures). -/
inductive GoErr where
  | eof
  | unexpectedEOF
  | timeNoData
  | timeBadVersion
  | timeInvalidLength
  | nameEmpty
  | nameInvalid
  | nameExists
  | nameUnknown
  | fieldTypeUnknown
  | identifierZero
  | pathEmpty
  | pathNotAbsolute
  | envErr (n : Nat)
deriving DecidableEq, Repr

/-- `io.ReadFull` of `k` bytes from a `bytes.Reader` holding `s`:
answers `(error, bytes read, remaining stream)`.  Reading from an
exhausted reader yields `io.EOF`; a partial read yields
`io.ErrUnexpectedEOF`. -/
def readFull (k : Nat) (s : List Nat) : Option GoErr × List Nat × List Nat :=
  if k ≤ s.length then (none, s.take k, s.drop k)
  else if s.length = 0 then (some GoErr.eof, [], s)
  else (some GoErr.unexpectedEOF, s, [])

/-- `binary.Read(r, binary.BigEndian, &x)` for a `uint16` destination:
`io.ReadFull` into a 2-byte buffer, then big-endian assembly. -/
def readU16BE (s : List Nat) : Except GoErr Nat × List Nat :=
  match readFull 2 s with
  | (some e, _, rest) => (Except.error e, rest)
  | (none, bs, rest) => (Except.ok (bs.headD 0 * 256 + (bs.drop 1).headD 0), rest)

/-- `bytes.Reader.Read(b)` where `b` has length `bufLen`: if the reader
is exhausted it answers `(0, io.EOF)`; otherwise it copies
`min bufLen s.length` bytes.  Answers
`(bytes copied, count, error, remaining stream)`. -/
def bytesReaderRead (bufLen : Nat) (s : List Nat) :
    List Nat × Nat × Option GoErr × List Nat :=
  match s with
  | [] => ([], 0, some GoErr.eof, [])
  | _ :: _ =>
    let n := min bufLen s.length
    (s.take n, n, none, s.drop n)

/-- Result of a `ReadFrom` call: the returned `(int64, error)` pair,
the field's value after the call, and the unread rest of the stream. -/
structure ReadFromResult (α : Type) where
  n : Int
  err : Option GoErr
  value : α
  rest : List Nat
deriving DecidableEq, Repr

/-- Result of a `WriteTo` call: the returned `(int64, error)` pair and
the bytes appended to the writer. -/
structure WriteToResult where
  n : Int
  err : Option GoErr
  out : List Nat
deriving DecidableEq, Repr

/-! ## FieldString (`field.go`)

The Go value `f.value` is a byte string; it is modelled as `List Nat`. -/

/-- `FieldString.Get`. -/
def fieldStringGet (value : List Nat) : List Nat := value

/-- `FieldString.Set`: a value longer than 65535 bytes is ignored (only
logged), leaving the stored value unchanged. -/
def fieldStringSet (value v : List Nat) : List Nat :=
  if 65535 < v.length then value else v

/-- `FieldString.ReadFrom`, transcribed line by line: read a 2-byte
big-endian length `l`; answer `io.EOF` if `l = 0`; then
`by := make([]byte, 0, l)` (a zero-length buffer!) is filled with
`r.Read(by)` and the results are checked against `l`. -/
def fieldStringReadFrom (value s : List Nat) : ReadFromResult (List Nat) :=
  match readU16BE s with
  | (Except.error e, rest) => ⟨0, some e, value, rest⟩
  | (Except.ok l, rest) =>
    if l = 0 then ⟨0, some GoErr.eof, value, rest⟩
    else
      match bytesReaderRead 0 rest with
      | (bs, n, err, rest2) =>
        if err ≠ none ∨ n ≠ l then ⟨Int.ofNat n, err, value, rest2⟩
        else ⟨Int.ofNat n, none, bs, rest2⟩

/-- `FieldString.WriteTo`: the empty string writes nothing; otherwise a
2-byte big-endian length prefix (`uint16` truncation) precedes the raw
bytes. -/
def fieldStringWriteTo (value : List Nat) : WriteToResult :=
  if value = [] then ⟨0, none, []⟩
  else
    let l := value.length % 65536
    ⟨Int.ofNat value.length, none, [l / 256 % 256, l % 256] ++ value⟩

/-! ## FieldTime (`field.go`)

`time.Time` is modelled by an instant (seconds and nanoseconds) plus a
zone-offset tag, where `none` stands for the UTC location; this is the
information `MarshalBinary` version 1 records. -/

/-- Model of `time.Time`: absolute seconds, nanoseconds, and the zone
offset in minutes (`none` = UTC location). -/
structure GoTime where
  sec : Int
  nsec : Nat
  offsetMin : Option Int
deriving DecidableEq, Repr

/-- `t.UTC()`: same instant, UTC location. -/
def goTimeUTC (t : GoTime) : GoTime := ⟨t.sec, t.nsec, none⟩

/-- Big-endian bytes of `v` in `w` bytes (most significant first). -/
def beBytes (w v : Nat) : List Nat :=
  (List.range w).map (fun i => v / 256 ^ (w - 1 - i) % 256)

/-- `time.Time.MarshalBinary`, version 1: a version byte `1`, 8 bytes
of seconds, 4 bytes of nanoseconds, and 2 bytes of zone offset in
minutes, where the UTC location is encoded as `-1`. -/
def timeMarshalBinary (t : GoTime) : List Nat :=
  let offEnc : Nat :=
    match t.offsetMin with
    | none => 65535
    | some o => (o % 65536).toNat
  1 :: (beBytes 8 (t.sec % (2 ^ 64 : Int)).toNat ++ beBytes 4 t.nsec ++ beBytes 2 offEnc)

/-- `time.Time.UnmarshalBinary` on a byte slice: empty data, a wrong
version byte, and a wrong length are errors; otherwise the instant and
offset are reassembled. -/
def timeUnmarshalBinary (l : List Nat) : Except GoErr GoTime :=
  match l with
  | [] => Except.error GoErr.timeNoData
  | v :: rest =>
    if v ≠ 1 then Except.error GoErr.timeBadVersion
    else if rest.length ≠ 14 then Except.error GoErr.timeInvalidLength
    else
      let sec : Nat := (rest.take 8).foldl (fun acc b => acc * 256 + b) 0
      let nsec : Nat := ((rest.drop 8).take 4).foldl (fun acc b => acc * 256 + b) 0
      let off : Nat := ((rest.drop 12).take 2).foldl (fun acc b => acc * 256 + b) 0
      let secI : Int := if 2 ^ 63 ≤ sec then (sec : Int) - 2 ^ 64 else (sec : Int)
      let offI : Int := if 2 ^ 15 ≤ off then (off : Int) - 2 ^ 16 else (off : Int)
      Except.ok ⟨secI, nsec, if offI = -1 then none else some offI⟩

/-- `FieldTime.ReadFrom`, transcribed line by line:
`by := make([]byte, 0, 15)` (a zero-length buffer!), `n, err := r.Read(by)`,
bail out only when `n != 15 && err != nil`, then
`f.value.UnmarshalBinary(by)`. -/
def fieldTimeReadFrom (value : GoTime) (s : List Nat) : ReadFromResult GoTime :=
  match bytesReaderRead 0 s with
  | (bs, n, err, rest) =>
    if n ≠ 15 ∧ err ≠ none then ⟨Int.ofNat n, err, value, rest⟩
    else
      match timeUnmarshalBinary bs with
      | Except.error e => ⟨0, some e, value, rest⟩
      | Except.ok t => ⟨15, none, t, rest⟩

/-- `FieldTime.WriteTo`: marshal `f.value.UTC()` and write the 15
bytes. -/
def fieldTimeWriteTo (value : GoTime) : WriteToResult :=
  ⟨15, none, timeMarshalBinary (goTimeUTC value)⟩

/-! ## FieldType and field definitions (`field.go`) -/

/-- The `FieldType` enumeration of `field.go`. -/
inductive FieldType where
  | unknown
  | bool
  | int8
  | int16
  | int32
  | int64
  | uint8
  | uint16
  | uint32
  | uint64
  | float32
  | float64
  | time
  | string
  | reference
  | link
  | collection
deriving DecidableEq, Repr

/-- `IsValidFieldType`: every listed type other than
`FieldTypeUnknown` is recognised. -/
def IsValidFieldType (t : FieldType) : Bool :=
  match t with
  | FieldType.unknown => false
  | _ => true

/-- `FieldDefn` of `field.go`: the field's type, its `uint8` ID
(modelled as `Nat`, truncated with `% 256` where the Go code casts),
and its name. -/
structure FieldDefn where
  Ftype : FieldType
  ID : Nat
  Name : String
deriving DecidableEq, Repr

/-! ## Name validation (`names.go`)

`init` compiles the regular expression
`^[a-z0-9][a-z0-9\-_]*[a-z0-9]$` into `nameRegexp`.  Because the final
character class is contained in the interior class, a string matches
exactly when it has at least two characters, every character but the
last is in the interior class consumed left to right, and the last is
a lowercase letter or digit. -/

/-- The character class `[a-z0-9]`. -/
def isLowerAlnum (c : Char) : Bool :=
  ('a' ≤ c && c ≤ 'z') || ('0' ≤ c && c ≤ '9')

/-- The character class `[a-z0-9\-_]`. -/
def isInteriorChar (c : Char) : Bool :=
  isLowerAlnum c || c = '-' || c = '_'

/-- Matching of the nonempty tail `[a-z0-9\-_]*[a-z0-9]$`:
all characters but the last are interior, the last is `[a-z0-9]`. -/
def matchTail : List Char → Bool
  | [] => false
  | [c] => isLowerAlnum c
  | c :: rest => isInteriorChar c && matchTail rest

/-- `nameRegexp.MatchString`: the full anchored match of
`^[a-z0-9][a-z0-9\-_]*[a-z0-9]$`. -/
def nameRegexpMatchString (s : String) : Bool :=
  match s.data with
  | [] => false
  | [_] => false
  | c :: rest => isLowerAlnum c && matchTail rest

/-! ## EntityTypeDefn and its field registry (`entity.go`)

The Go `map[string]FieldDefn` is only ever extended one binding at a
time and queried by key, so it is modelled as an association list in
insertion order; `len` is the list length. -/

/-- `EntityTypeDefn` of `entity.go` (the `sync.RWMutex` guards the map
in Go and carries no state of its own). -/
structure EntityTypeDefn where
  id : Nat
  name : String
  fields : List (String × FieldDefn)
deriving DecidableEq, Repr

/-- Key lookup in the modelled `map[string]FieldDefn`. -/
def lookupName (l : List (String × FieldDefn)) (nm : String) : Option FieldDefn :=
  match l with
  | [] => none
  | (k, fd) :: rest => if k = nm then some fd else lookupName rest nm

/-- `NewEntityTypeDefn`: validate the name, then start with the zero
`id` and no fields. -/
def newEntityTypeDefn (name : String) : Except GoErr EntityTypeDefn :=
  if nameRegexpMatchString name then Except.ok ⟨0, name, []⟩
  else Except.error GoErr.nameInvalid

/-- `EntityTypeDefn.ID`. -/
def entityTypeDefnID (ed : EntityTypeDefn) : Nat := ed.id

/-- `EntityTypeDefn.AddField`: validate the name and the type, reject
an existing name, else insert with ID `uint8(len(fields) + 1)`.
Answers the returned error together with the receiver's new state. -/
def addField (ed : EntityTypeDefn) (name : String) (ftype : FieldType) :
    Option GoErr × EntityTypeDefn :=
  if ¬ nameRegexpMatchString name then (some GoErr.nameInvalid, ed)
  else if ¬ IsValidFieldType ftype then (some GoErr.fieldTypeUnknown, ed)
  else if (lookupName ed.fields name).isSome then (some GoErr.nameExists, ed)
  else
    let n := ed.fields.length
    (none, ⟨ed.id, ed.name, ed.fields ++ [(name, ⟨ftype, (n + 1) % 256, name⟩)]⟩)

/-- `EntityTypeDefn.Field`: look a field definition up by name. -/
def fieldOfDefn (ed : EntityTypeDefn) (name : String) : Except GoErr FieldDefn :=
  match lookupName ed.fields name with
  | some fd => Except.ok fd
  | none => Except.error GoErr.nameUnknown

/-- A sequence of `AddField` calls, keeping only the final state. -/
def addFields (ed : EntityTypeDefn) (l : List (String × FieldType)) : EntityTypeDefn :=
  l.foldl (fun e p => (addField e p.1 p.2).2) ed

/-! ## Namespace (`namespace.go`) -/

/-- `Namespace` of `namespace.go`. -/
structure Namespace where
  name : String
  buckets : List String
deriving DecidableEq, Repr

/-- `NewNamespace`: an empty name is `ErrNameEmpty`, an invalid one is
`ErrNameInvalid`. -/
def newNamespace (name : String) : Except GoErr Namespace :=
  if name = "" then Except.error GoErr.nameEmpty
  else if ¬ nameRegexpMatchString name then Except.error GoErr.nameInvalid
  else Except.ok ⟨name, []⟩

/-! ## EntityKey (`entity.go`) -/

/-- `EntityKey.Key`: `binary.Write(buf, binary.BigEndian, k.id)` for a
`uint64`, i.e. the 8 big-endian bytes, most significant first. -/
def entityKeyKey (id : Nat) : List Nat :=
  [id / 2 ^ 56 % 256, id / 2 ^ 48 % 256, id / 2 ^ 40 % 256, id / 2 ^ 32 % 256,
   id / 2 ^ 24 % 256, id / 2 ^ 16 % 256, id / 2 ^ 8 % 256, id % 256]

/-- Big-endian reassembly of a byte list. -/
def fromBE (l : List Nat) : Nat :=
  l.foldl (fun acc b => acc * 256 + b) 0

/-- `EntityKey.fromKey`: `binary.Read(bytes.NewReader(by),
binary.BigEndian, &k.id)` — `io.ReadFull` of 8 bytes, then big-endian
reassembly. -/
def entityKeyFromKey (bs : List Nat) : Except GoErr Nat :=
  match readFull 8 bs with
  | (some e, _, _) => Except.error e
  | (none, eight, _) => Except.ok (fromBE eight)

/-- `bytes.Compare(a, b) < 0`: strict lexicographic byte order, the
iteration order of keys in the backing store. -/
def bytesLt : List Nat → List Nat → Bool
  | [], [] => false
  | [], _ :: _ => true
  | _ :: _, [] => false
  | a :: as_, b :: bs_ => a < b || (a = b && bytesLt as_ bs_)

/-! ## Storage facade (`internal/storage/db.go`)

The filesystem and BoltDB are external collaborators; their outcomes
are supplied as an environment of `Option GoErr` results.  The
package-level variables `storageDir`, `dberr` and the `sync.Once`
guard form the explicit state. -/

/-- Outcomes of the external calls made by `db.go`: `os.MkdirAll`,
`bolt.Open`, and the catalogue-creating `Update` transaction. -/
structure StorageEnv where
  mkdirErr : Option GoErr
  openErr : Option GoErr
  catalogErr : Option GoErr
deriving DecidableEq, Repr

/-- The package-level state of `internal/storage`: `storageDir`,
`dberr`, and whether `onceDB.Do` has already fired. -/
structure StorageState where
  storageDir : String
  dberr : Option GoErr
  onceDone : Bool
deriving DecidableEq, Repr

/-- `path.IsAbs`: the path starts with a slash. -/
def pathIsAbs (p : String) : Bool :=
  match p.data with
  | [] => false
  | c :: _ => c = '/'


/-- The unexported `initDB`: reset `dberr`, create the directory, open
the store, and set up the system catalogues, recording the first
failure in `dberr`. -/
def initDBBody (env : StorageEnv) (s : StorageState) : StorageState :=
  match env.mkdirErr with
  | some e => ⟨s.storageDir, some e, s.onceDone⟩
  | none =>
    match env.openErr with
    | some e => ⟨s.storageDir, some e, s.onceDone⟩
    | none => ⟨s.storageDir, env.catalogErr, s.onceDone⟩

/-- `InitDB`: path validation, then `storageDir = p; initDB()`, and the
resulting `dberr` is returned. -/
def InitDB (env : StorageEnv) (p : String) (s : StorageState) :
    Option GoErr × StorageState :=
  if p = "" then (some GoErr.pathEmpty, s)
  else if ¬ pathIsAbs p then (some GoErr.pathNotAbsolute, s)
  else
    let s2 := initDBBody env ⟨p, s.dberr, s.onceDone⟩
    (s2.dberr, s2)

/-- The unexported `instance`: a fresh `bolt.Open` whose error (or
success) overwrites `dberr`. -/
def instanceDB (env : StorageEnv) (s : StorageState) : StorageState :=
  ⟨s.storageDir, env.openErr, s.onceDone⟩

/-- `DbInstance`: `onceDB.Do(instance)` on the first-ever call, then
the cached `dberr` decides the answer (`none` models the non-nil `*DB`
handle). -/
def DbInstance (env : StorageEnv) (s : StorageState) :
    Option GoErr × StorageState :=
  let s2 := if s.onceDone then s
            else ⟨(instanceDB env s).storageDir, (instanceDB env s).dberr, true⟩
  (s2.dberr, s2)

/-! ## Claim-level auxiliary definitions -/

/-- Modelled from the spec (§6 naming rule), for comparison with the
source regular expression: at least two characters, the first and last
a lowercase letter or digit, interior characters additionally allowing
hyphen and underscore. -/
def SpecValidName (s : String) : Prop :=
  ∃ c1 mid c2, s.data = c1 :: (mid ++ [c2]) ∧ isLowerAlnum c1 = true
    ∧ isLowerAlnum c2 = true ∧ ∀ c ∈ mid, isInteriorChar c = true

/-- 256 pairwise-distinct valid two-letter names, each with a valid
field type: the shortest `AddField` sequence that exhausts the `uint8`
ID space. -/
def wrapNames : List (String × FieldType) :=
  [("aa", FieldType.bool), ("ab", FieldType.bool), ("ac", FieldType.bool), ("ad", FieldType.bool),
   ("ae", FieldType.bool), ("af", FieldType.bool), ("ag", FieldType.bool), ("ah", FieldType.bool),
   ("ai", FieldType.bool), ("aj", FieldType.bool), ("ak", FieldType.bool), ("al", FieldType.bool),
   ("am", FieldType.bool), ("an", FieldType.bool), ("ao", FieldType.bool), ("ap", FieldType.bool),
   ("ba", FieldType.bool), ("bb", FieldType.bool), ("bc", FieldType.bool), ("bd", FieldType.bool),
   ("be", FieldType.bool), ("bf", FieldType.bool), ("bg", FieldType.bool), ("bh", FieldType.bool),
   ("bi", FieldType.bool), ("bj", FieldType.bool), ("bk", FieldType.bool), ("bl", FieldType.bool),
   ("bm", FieldType.bool), ("bn", FieldType.bool), ("bo", FieldType.bool), ("bp", FieldType.bool),
   ("ca", FieldType.bool), ("cb", FieldType.bool), ("cc", FieldType.bool), ("cd", FieldType.bool),
   ("ce", FieldType.bool), ("cf", FieldType.bool), ("cg", FieldType.bool), ("ch", FieldType.bool),
   ("ci", FieldType.bool), ("cj", FieldType.bool), ("ck", FieldType.bool), ("cl", FieldType.bool),
   ("cm", FieldType.bool), ("cn", FieldType.bool), ("co", FieldType.bool), ("cp", FieldType.bool),
   ("da", FieldType.bool), ("db", FieldType.bool), ("dc", FieldType.bool), ("dd", FieldType.bool),
   ("de", FieldType.bool), ("df", FieldType.bool), ("dg", FieldType.bool), ("dh", FieldType.bool),
   ("di", FieldType.bool), ("dj", FieldType.bool), ("dk", FieldType.bool), ("dl", FieldType.bool),
   ("dm", FieldType.bool), ("dn", FieldType.bool), ("do", FieldType.bool), ("dp", FieldType.bool),
   ("ea", FieldType.bool), ("eb", FieldType.bool), ("ec", FieldType.bool), ("ed", FieldType.bool),
   ("ee", FieldType.bool), ("ef", FieldType.bool), ("eg", FieldType.bool), ("eh", FieldType.bool),
   ("ei", FieldType.bool), ("ej", FieldType.bool), ("ek", FieldType.bool), ("el", FieldType.bool),
   ("em", FieldType.bool), ("en", FieldType.bool), ("eo", FieldType.bool), ("ep", FieldType.bool),
   ("fa", FieldType.bool), ("fb", FieldType.bool), ("fc", FieldType.bool), ("fd", FieldType.bool),
   ("fe", FieldType.bool), ("ff", FieldType.bool), ("fg", FieldType.bool), ("fh", FieldType.bool),
   ("fi", FieldType.bool), ("fj", FieldType.bool), ("fk", FieldType.bool), ("fl", FieldType.bool),
   ("fm", FieldType.bool), ("fn", FieldType.bool), ("fo", FieldType.bool), ("fp", FieldType.bool),
   ("ga", FieldType.bool), ("gb", FieldType.bool), ("gc", FieldType.bool), ("gd", FieldType.bool),
   ("ge", FieldType.bool), ("gf", FieldType.bool), ("gg", FieldType.bool), ("gh", FieldType.bool),
   ("gi", FieldType.bool), ("gj", FieldType.bool), ("gk", FieldType.bool), ("gl", FieldType.bool),
   ("gm", FieldType.bool), ("gn", FieldType.bool), ("go", FieldType.bool), ("gp", FieldType.bool),
   ("ha", FieldType.bool), ("hb", FieldType.bool), ("hc", FieldType.bool), ("hd", FieldType.bool),
   ("he", FieldType.bool), ("hf", FieldType.bool), ("hg", FieldType.bool), ("hh", FieldType.bool),
   ("hi", FieldType.bool), ("hj", FieldType.bool), ("hk", FieldType.bool), ("hl", FieldType.bool),
   ("hm", FieldType.bool), ("hn", FieldType.bool), ("ho", FieldType.bool), ("hp", FieldType.bool),
   ("ia", FieldType.bool), ("ib", FieldType.bool), ("ic", FieldType.bool), ("id", FieldType.bool),
   ("ie", FieldType.bool), ("if", FieldType.bool), ("ig", FieldType.bool), ("ih", FieldType.bool),
   ("ii", FieldType.bool), ("ij", FieldType.bool), ("ik", FieldType.bool), ("il", FieldType.bool),
   ("im", FieldType.bool), ("in", FieldType.bool), ("io", FieldType.bool), ("ip", FieldType.bool),
   ("ja", FieldType.bool), ("jb", FieldType.bool), ("jc", FieldType.bool), ("jd", FieldType.bool),
   ("je", FieldType.bool), ("jf", FieldType.bool), ("jg", FieldType.bool), ("jh", FieldType.bool),
   ("ji", FieldType.bool), ("jj", FieldType.bool), ("jk", FieldType.bool), ("jl", FieldType.bool),
   ("jm", FieldType.bool), ("jn", FieldType.bool), ("jo", FieldType.bool), ("jp", FieldType.bool),
   ("ka", FieldType.bool), ("kb", FieldType.bool), ("kc", FieldType.bool), ("kd", FieldType.bool),
   ("ke", FieldType.bool), ("kf", FieldType.bool), ("kg", FieldType.bool), ("kh", FieldType.bool),
   ("ki", FieldType.bool), ("kj", FieldType.bool), ("kk", FieldType.bool), ("kl", FieldType.bool),
   ("km", FieldType.bool), ("kn", FieldType.bool), ("ko", FieldType.bool), ("kp", FieldType.bool),
   ("la", FieldType.bool), ("lb", FieldType.bool), ("lc", FieldType.bool), ("ld", FieldType.bool),
   ("le", FieldType.bool), ("lf", FieldType.bool), ("lg", FieldType.bool), ("lh", FieldType.bool),
   ("li", FieldType.bool), ("lj", FieldType.bool), ("lk", FieldType.bool), ("ll", FieldType.bool),
   ("lm", FieldType.bool), ("ln", FieldType.bool), ("lo", FieldType.bool), ("lp", FieldType.bool),
   ("ma", FieldType.bool), ("mb", FieldType.bool), ("mc", FieldType.bool), ("md", FieldType.bool),
   ("me", FieldType.bool), ("mf", FieldType.bool), ("mg", FieldType.bool), ("mh", FieldType.bool),
   ("mi", FieldType.bool), ("mj", FieldType.bool), ("mk", FieldType.bool), ("ml", FieldType.bool),
   ("mm", FieldType.bool), ("mn", FieldType.bool), ("mo", FieldType.bool), ("mp", FieldType.bool),
   ("na", FieldType.bool), ("nb", FieldType.bool), ("nc", FieldType.bool), ("nd", FieldType.bool),
   ("ne", FieldType.bool), ("nf", FieldType.bool), ("ng", FieldType.bool), ("nh", FieldType.bool),
   ("ni", FieldType.bool), ("nj", FieldType.bool), ("nk", FieldType.bool), ("nl", FieldType.bool),
   ("nm", FieldType.bool), ("nn", FieldType.bool), ("no", FieldType.bool), ("np", FieldType.bool),
   ("oa", FieldType.bool), ("ob", FieldType.bool), ("oc", FieldType.bool), ("od", FieldType.bool),
   ("oe", FieldType.bool), ("of", FieldType.bool), ("og", FieldType.bool), ("oh", FieldType.bool),
   ("oi", FieldType.bool), ("oj", FieldType.bool), ("ok", FieldType.bool), ("ol", FieldType.bool),
   ("om", FieldType.bool), ("on", FieldType.bool), ("oo", FieldType.bool), ("op", FieldType.bool),
   ("pa", FieldType.bool), ("pb", FieldType.bool), ("pc", FieldType.bool), ("pd", FieldType.bool),
   ("pe", FieldType.bool), ("pf", FieldType.bool), ("pg", FieldType.bool), ("ph", FieldType.bool),
   ("pi", FieldType.bool), ("pj", FieldType.bool), ("pk", FieldType.bool), ("pl", FieldType.bool),
   ("pm", FieldType.bool), ("pn", FieldType.bool), ("po", FieldType.bool), ("pp", FieldType.bool)]

/-- The entity-type definitions reachable through the exported API:
a fresh `NewEntityTypeDefn` result, extended by arbitrary `AddField`
calls. -/
inductive ReachableDefn : EntityTypeDefn → Prop where
  | init (name : String) (ed : EntityTypeDefn)
      (h : newEntityTypeDefn name = Except.ok ed) : ReachableDefn ed
  | step (ed : EntityTypeDefn) (nm : String) (t : FieldType)
      (h : ReachableDefn ed) : ReachableDefn (addField ed nm t).2

/-! # Theorems -/

/-- C1: the claimed encode/decode round trip fails on the code.
Encoding the one-byte string `"a"` yields `[0, 1, 97]`, but
`FieldString.ReadFrom` on those bytes answers a nil error while leaving
the field's value untouched (the `make([]byte, 0, l)` buffer reads
zero bytes); the empty string encodes to zero bytes but decodes to
`io.EOF`, not to the empty value; and `FieldTime.ReadFrom` on the
15 bytes written by `FieldTime.WriteTo` answers the
`time.Time.UnmarshalBinary` no-data error. -/
theorem fieldCodec_roundtrip_fails_eval :
    (fieldStringWriteTo [97]).out = [0, 1, 97]
    ∧ (fieldStringReadFrom [] [0, 1, 97]).err = none
    ∧ (fieldStringReadFrom [] [0, 1, 97]).value = []
    ∧ (fieldStringWriteTo []).out = []
    ∧ (fieldStringReadFrom [] []).err = some GoErr.eof
    ∧ (fieldTimeReadFrom ⟨0, 0, none⟩
        (fieldTimeWriteTo ⟨0, 0, some 330⟩).out).err = some GoErr.timeNoData := by
  decide

/-- C2: a short read is not always an error.  The stream `[0, 2, 65]`
declares a 2-byte payload but offers only one byte, yet
`FieldString.ReadFrom` answers `(0, nil)` — success — because
`r.Read` into the zero-length buffer returns `(0, nil)` and the guard
returns the nil error. -/
theorem fieldString_shortRead_accepted_eval :
    ([0, 2, 65] : List Nat).length < 2 + 2
    ∧ (fieldStringReadFrom [] [0, 2, 65]).err = none
    ∧ (fieldStringReadFrom [] [0, 2, 65]).n = 0 := by
  decide

/-- C5: `FieldString.Set` with a value longer than 65535 bytes leaves
the previously held value unchanged, and a subsequent `Get` answers
the old value. -/
theorem fieldString_set_oversize_noop (value v : List Nat)
    (h : 65535 < v.length) :
    fieldStringSet value v = value
    ∧ fieldStringGet (fieldStringSet value v) = fieldStringGet value := by
  simp [fieldStringSet, fieldStringGet, h]

/-- Witness for C5 at a concrete 65536-byte value. -/
theorem fieldString_set_oversize_noop_witness :
    65535 < (List.replicate 65536 97).length
    ∧ fieldStringSet [98] (List.replicate 65536 97) = [98] := by
  have h : 65535 < (List.replicate 65536 (97 : Nat)).length := by
    rw [List.length_replicate]
    omega
  exact ⟨h, (fieldString_set_oversize_noop [98] (List.replicate 65536 97) h).1⟩

/-- C6: on a zero length prefix, `FieldString.ReadFrom` answers the
`io.EOF` sentinel, leaves the value unchanged, and never reports a
silent success. -/
theorem fieldString_readFrom_zero_length_eof (value rest : List Nat) :
    fieldStringReadFrom value (0 :: 0 :: rest) =
      ⟨0, some GoErr.eof, value, rest⟩ := by
  have h2 : readU16BE (0 :: 0 :: rest) = (Except.ok 0, rest) := by
    simp [readU16BE, readFull]
  simp [fieldStringReadFrom, h2]

/-! ## Registry lemmas -/

/-- A binding found in a prefix is found in the whole list. -/
theorem lookupName_append_some (xs ys : List (String × FieldDefn)) (nm : String)
    (fd : FieldDefn) (h : lookupName xs nm = some fd) :
    lookupName (xs ++ ys) nm = some fd := by
  induction xs with
  | nil => simp [lookupName] at h
  | cons p rest ih =>
    obtain ⟨k, v⟩ := p
    by_cases hk : k = nm
    · simpa [lookupName, hk] using h
    · simp only [List.cons_append, lookupName, if_neg hk] at h ⊢
      exact ih h

/-- A name absent from a prefix is looked up in the suffix. -/
theorem lookupName_append_none (xs ys : List (String × FieldDefn)) (nm : String)
    (h : lookupName xs nm = none) :
    lookupName (xs ++ ys) nm = lookupName ys nm := by
  induction xs with
  | nil => simp
  | cons p rest ih =>
    obtain ⟨k, v⟩ := p
    by_cases hk : k = nm
    · simp [lookupName, hk] at h
    · simp only [List.cons_append, lookupName, if_neg hk] at h ⊢
      exact ih h

/-- A successful `AddField`: the returned error is nil and the new
binding carries ID `(len + 1) % 256`. -/
theorem addField_success (ed : EntityTypeDefn) (nm : String) (t : FieldType)
    (hn : nameRegexpMatchString nm = true) (ht : IsValidFieldType t = true)
    (hf : lookupName ed.fields nm = none) :
    addField ed nm t =
      (none, ⟨ed.id, ed.name,
        ed.fields ++ [(nm, ⟨t, (ed.fields.length + 1) % 256, nm⟩)]⟩) := by
  simp [addField, hn, ht, hf]

/-- Re-adding an existing name answers `ErrNameExists` and leaves the
registry unchanged. -/
theorem addField_existing (ed : EntityTypeDefn) (nm : String) (t : FieldType)
    (fd : FieldDefn) (hn : nameRegexpMatchString nm = true)
    (ht : IsValidFieldType t = true)
    (h : lookupName ed.fields nm = some fd) :
    addField ed nm t = (some GoErr.nameExists, ed) := by
  simp [addField, hn, ht, h]

/-- `AddField` either leaves the field list unchanged (error cases) or
appends exactly one binding. -/
theorem addField_fields_extends (ed : EntityTypeDefn) (nm : String) (t : FieldType) :
    (addField ed nm t).2.fields = ed.fields
    ∨ (addField ed nm t).2.fields
        = ed.fields ++ [(nm, ⟨t, (ed.fields.length + 1) % 256, nm⟩)] := by
  unfold addField
  split
  · exact Or.inl rfl
  split
  · exact Or.inl rfl
  split
  · exact Or.inl rfl
  · exact Or.inr rfl

/-- `AddField` never changes the entity type's `id`. -/
theorem addField_id_preserved (ed : EntityTypeDefn) (nm : String) (t : FieldType) :
    (addField ed nm t).2.id = ed.id := by
  unfold addField
  split
  · rfl
  split
  · rfl
  split
  · rfl
  · rfl

/-- An existing binding survives any later `AddField` call. -/
theorem lookupName_addField (ed : EntityTypeDefn) (nm2 : String) (t : FieldType)
    (nm : String) (fd : FieldDefn) (h : lookupName ed.fields nm = some fd) :
    lookupName (addField ed nm2 t).2.fields nm = some fd := by
  rcases addField_fields_extends ed nm2 t with he | he
  · rw [he]; exact h
  · rw [he]; exact lookupName_append_some _ _ _ _ h

/-- An existing binding survives any later sequence of `AddField`
calls. -/
theorem lookupName_addFields (l : List (String × FieldType)) :
    ∀ (ed : EntityTypeDefn) (nm : String) (fd : FieldDefn),
      lookupName ed.fields nm = some fd →
      lookupName (addFields ed l).fields nm = some fd := by
  induction l with
  | nil => intro ed nm fd h; simpa [addFields] using h
  | cons p rest ih =>
    intro ed nm fd h
    have h2 := lookupName_addField ed p.1 p.2 nm fd h
    simpa [addFields] using ih (addField ed p.1 p.2).2 nm fd h2

/-- `EntityTypeDefn.Field` succeeds exactly on a present binding. -/
theorem fieldOfDefn_ok (ed : EntityTypeDefn) (nm : String) (fd : FieldDefn) :
    fieldOfDefn ed nm = Except.ok fd ↔ lookupName ed.fields nm = some fd := by
  unfold fieldOfDefn
  cases h : lookupName ed.fields nm <;> simp [h]

/-- The IDs assigned by a sequence of `AddField` calls with valid,
pairwise-distinct, fresh names: sequence positions, each truncated by
the `uint8` cast. -/
theorem addFields_map_ID (l : List (String × FieldType)) :
    ∀ ed : EntityTypeDefn,
      (∀ p ∈ l, nameRegexpMatchString p.1 = true ∧ IsValidFieldType p.2 = true) →
      List.Pairwise (fun p q => p.1 ≠ q.1) l →
      (∀ p ∈ l, lookupName ed.fields p.1 = none) →
      (addFields ed l).fields.map (fun q => q.2.ID)
        = ed.fields.map (fun q => q.2.ID)
          ++ (List.range' (ed.fields.length + 1) l.length).map (fun k => k % 256) := by
  induction l with
  | nil => intro ed _ _ _; simp [addFields]
  | cons p rest ih =>
    intro ed hv hd hf
    obtain ⟨nm, t⟩ := p
    have hvp := hv (nm, t) (List.mem_cons_self _ _)
    have hfp := hf (nm, t) (List.mem_cons_self _ _)
    have hd2 := List.pairwise_cons.mp hd
    have hstep : addFields ed ((nm, t) :: rest) = addFields (addField ed nm t).2 rest := by
      simp [addFields]
    have hsucc := addField_success ed nm t hvp.1 hvp.2 hfp
    have hfresh : ∀ q ∈ rest,
        lookupName (ed.fields ++ [(nm, ⟨t, (ed.fields.length + 1) % 256, nm⟩)]) q.1 = none := by
      intro q hq
      have hqn := hf q (List.mem_cons_of_mem _ hq)
      have hneq : nm ≠ q.1 := hd2.1 q hq
      rw [lookupName_append_none _ _ _ hqn]
      simp [lookupName, hneq]
    have ihres := ih ⟨ed.id, ed.name, ed.fields ++ [(nm, ⟨t, (ed.fields.length + 1) % 256, nm⟩)]⟩
      (fun q hq => hv q (List.mem_cons_of_mem _ hq)) hd2.2 hfresh
    rw [hstep, hsucc]
    rw [ihres]
    simp [List.range'_succ, List.append_assoc]

/-- C3 (amended): for any sequence of at most 255 `AddField` calls on
one `EntityTypeDefn` with pairwise-distinct valid names and valid
types, the assigned field IDs are exactly `1, 2, 3, …` in call order;
re-adding a previously used name fails with `ErrNameExists` and leaves
the registry unchanged; and `Field(name)` keeps answering the
originally assigned definition after any further `AddField` calls. -/
theorem addField_sequence_ids_correct (name : String) (ed0 : EntityTypeDefn)
    (h0 : newEntityTypeDefn name = Except.ok ed0)
    (l : List (String × FieldType))
    (hv : ∀ p ∈ l, nameRegexpMatchString p.1 = true ∧ IsValidFieldType p.2 = true)
    (hd : List.Pairwise (fun p q => p.1 ≠ q.1) l)
    (hlen : l.length ≤ 255) :
    ((addFields ed0 l).fields.map fun q => q.2.ID) = List.range' 1 l.length
    ∧ (∀ nm t fd, nameRegexpMatchString nm = true → IsValidFieldType t = true →
        lookupName (addFields ed0 l).fields nm = some fd →
        addField (addFields ed0 l) nm t = (some GoErr.nameExists, addFields ed0 l))
    ∧ (∀ l2 nm fd, fieldOfDefn (addFields ed0 l) nm = Except.ok fd →
        fieldOfDefn (addFields (addFields ed0 l) l2) nm = Except.ok fd) := by
  have hfields0 : ed0.fields = [] := by
    unfold newEntityTypeDefn at h0
    split at h0
    · cases h0; rfl
    · cases h0
  refine ⟨?ids, ?dup, ?stable⟩
  case ids =>
    have hmap := addFields_map_ID l ed0 hv hd (by intro p hp; rw [hfields0]; rfl)
    rw [hmap, hfields0]
    simp only [List.map_nil, List.nil_append, List.length_nil, Nat.zero_add]
    refine (List.map_congr_left ?_).trans (List.map_id _)
    intro k hk
    rw [List.mem_range'] at hk
    obtain ⟨i, hi, rfl⟩ := hk
    exact Nat.mod_eq_of_lt (by omega)
  case dup =>
    intro nm t fd hn ht h
    exact addField_existing _ nm t fd hn ht h
  case stable =>
    intro l2 nm fd h
    rw [fieldOfDefn_ok] at h ⊢
    exact lookupName_addFields l2 _ nm fd h

/-- Witness for C3 at a concrete two-call sequence. -/
theorem addField_sequence_ids_correct_witness :
    ((addFields ⟨0, "et", []⟩ [("aa", FieldType.bool), ("ab", FieldType.uint64)]).fields.map
      fun q => q.2.ID) = List.range' 1 2 :=
  (addField_sequence_ids_correct "et" ⟨0, "et", []⟩ (by rfl)
    [("aa", FieldType.bool), ("ab", FieldType.uint64)]
    (by decide) (by decide) (by decide)).1

/-- A numeric key injective on strings, used to check name
distinctness by a linear scan. -/
def nameKey (s : String) : Nat :=
  s.data.foldl (fun acc c => acc * 1114112 + c.toNat) 0

/-- Linear check that consecutive entries have strictly increasing
name keys. -/
def sortedByKey : List (String × FieldType) → Bool
  | [] => true
  | [_] => true
  | p :: q :: rest => decide (nameKey p.1 < nameKey q.1) && sortedByKey (q :: rest)

set_option maxRecDepth 4000 in
/-- Every entry of `wrapNames` has a valid name and a valid type. -/
theorem wrapNames_valid :
    ∀ p ∈ wrapNames, nameRegexpMatchString p.1 = true ∧ IsValidFieldType p.2 = true := by
  decide

/-- A `sortedByKey` list is pairwise increasing under `nameKey`. -/
theorem sortedByKey_pairwise :
    ∀ l : List (String × FieldType), sortedByKey l = true →
      List.Pairwise (fun p q => nameKey p.1 < nameKey q.1) l := by
  intro l
  induction l with
  | nil => intro _; exact List.Pairwise.nil
  | cons p rest ih =>
    intro h
    cases rest with
    | nil => exact List.pairwise_singleton _ _
    | cons q rest2 =>
      rw [sortedByKey, Bool.and_eq_true] at h
      have h1 : nameKey p.1 < nameKey q.1 := of_decide_eq_true h.1
      have hp := ih h.2
      refine List.Pairwise.cons ?_ hp
      intro r hr
      rcases List.mem_cons.mp hr with rfl | hr2
      · exact h1
      · exact Nat.lt_trans h1 (List.rel_of_pairwise_cons hp hr2)

set_option maxRecDepth 4000 in
/-- The names of `wrapNames` are strictly increasing under `nameKey`. -/
theorem wrapNames_sorted : sortedByKey wrapNames = true := by
  decide

/-- The names of `wrapNames` are pairwise distinct. -/
theorem wrapNames_distinct :
    List.Pairwise (fun p q : String × FieldType => p.1 ≠ q.1) wrapNames := by
  have hpw := sortedByKey_pairwise wrapNames wrapNames_sorted
  exact hpw.imp (fun h heq => absurd (congrArg nameKey heq) (Nat.ne_of_lt h))

set_option maxRecDepth 4000 in
/-- `wrapNames` has 256 entries. -/
theorem wrapNames_length : wrapNames.length = 256 := by rfl

set_option maxRecDepth 4000 in
/-- C3 counterexample: a sequence of 256 `AddField` calls with
pairwise-distinct valid names and valid types whose assigned IDs are
not `1, …, 256`: the `uint8(n + 1)` cast wraps the 256th ID to `0`. -/
theorem addField_id_wraps_at_256 :
    (∀ p ∈ wrapNames, nameRegexpMatchString p.1 = true ∧ IsValidFieldType p.2 = true)
    ∧ List.Pairwise (fun p q => p.1 ≠ q.1) wrapNames
    ∧ wrapNames.length = 256
    ∧ ¬ (((addFields ⟨0, "et", []⟩ wrapNames).fields.map fun q => q.2.ID)
          = List.range' 1 wrapNames.length) := by
  have hv := wrapNames_valid
  have hd := wrapNames_distinct
  have hlen := wrapNames_length
  refine ⟨hv, hd, hlen, ?_⟩
  have hmap := addFields_map_ID wrapNames ⟨0, "et", []⟩ hv hd (by intro p hp; rfl)
  rw [hmap, hlen]
  simp only [List.map_nil, List.nil_append, List.length_nil, Nat.zero_add]
  intro h
  have h255 := congrArg (fun li : List Nat => li[255]?) h
  simp [List.getElem?_map, List.getElem?_range'] at h255

set_option maxRecDepth 4000 in
/-- C4: evaluation at the failing input.  After 256 `AddField` calls
with distinct valid names, the registry holds 256 fields — more than
the documented maximum of 255 — and the 256th stored `FieldDefn`
carries ID `0`, the value documented as "unset/invalid". -/
theorem registry_overflow_zero_id_eval :
    (addFields ⟨0, "et", []⟩ wrapNames).fields.length = 256
    ∧ ((addFields ⟨0, "et", []⟩ wrapNames).fields.map fun q => q.2.ID)[255]?
        = some 0 := by
  have hv := wrapNames_valid
  have hd := wrapNames_distinct
  have hlen := wrapNames_length
  have hmap := addFields_map_ID wrapNames ⟨0, "et", []⟩ hv hd (by intro p hp; rfl)
  rw [hlen] at hmap
  simp only [List.map_nil, List.nil_append, List.length_nil, Nat.zero_add] at hmap
  constructor
  · have hl := congrArg List.length hmap
    simpa using hl
  · rw [hmap]
    simp [List.getElem?_map, List.getElem?_range']

/-- C10: every `EntityTypeDefn` reachable through the exported API —
a `NewEntityTypeDefn` call followed by any sequence of `AddField`
calls — has `ID() = 0`: no operation ever assigns the entity type's
`id` field. -/
theorem entityTypeDefn_id_always_zero (ed : EntityTypeDefn)
    (h : ReachableDefn ed) : entityTypeDefnID ed = 0 := by
  induction h with
  | init name ed h0 =>
    unfold newEntityTypeDefn at h0
    split at h0
    · cases h0; rfl
    · cases h0
  | step ed nm t h ih =>
    show (addField ed nm t).2.id = 0
    rw [addField_id_preserved]
    exact ih

/-- Witness for C10 at a concrete reachable definition. -/
theorem entityTypeDefn_id_always_zero_witness :
    ReachableDefn (addField ⟨0, "et", []⟩ "aa" FieldType.bool).2
    ∧ entityTypeDefnID (addField ⟨0, "et", []⟩ "aa" FieldType.bool).2 = 0 :=
  ⟨ReachableDefn.step _ "aa" FieldType.bool
      (ReachableDefn.init "et" ⟨0, "et", []⟩ (by rfl)),
   entityTypeDefn_id_always_zero _
     (ReachableDefn.step _ "aa" FieldType.bool
       (ReachableDefn.init "et" ⟨0, "et", []⟩ (by rfl)))⟩

/-! ## EntityKey lemmas -/

/-- Folding big-endian assembly from an arbitrary accumulator. -/
theorem fromBE_aux (l : List Nat) : ∀ acc : Nat,
    l.foldl (fun acc b => acc * 256 + b) acc
      = acc * 256 ^ l.length + l.foldl (fun acc b => acc * 256 + b) 0 := by
  induction l with
  | nil => intro acc; simp
  | cons a l ih =>
    intro acc
    simp only [List.foldl_cons, List.length_cons]
    rw [ih (acc * 256 + a), ih (0 * 256 + a)]
    rw [pow_succ]
    ring

/-- Peeling the most significant byte off `fromBE`. -/
theorem fromBE_cons (a : Nat) (l : List Nat) :
    fromBE (a :: l) = a * 256 ^ l.length + fromBE l := by
  unfold fromBE
  simp only [List.foldl_cons]
  rw [fromBE_aux]
  simp

/-- A byte list below 256 pointwise assembles below `256 ^ length`. -/
theorem fromBE_lt (l : List Nat) (h : ∀ x ∈ l, x < 256) :
    fromBE l < 256 ^ l.length := by
  induction l with
  | nil => simp [fromBE]
  | cons a l ih =>
    rw [fromBE_cons]
    have ha : a < 256 := h a (List.mem_cons_self _ _)
    have hl := ih (fun x hx => h x (List.mem_cons_of_mem _ hx))
    simp only [List.length_cons, pow_succ]
    calc a * 256 ^ l.length + fromBE l
        < a * 256 ^ l.length + 256 ^ l.length := Nat.add_lt_add_left hl _
      _ = (a + 1) * 256 ^ l.length := by ring
      _ ≤ 256 * 256 ^ l.length := Nat.mul_le_mul_right _ (by omega)
      _ = 256 ^ l.length * 256 := Nat.mul_comm _ _

/-- Lexicographic byte order on equal-length byte lists agrees with
numeric order of the assembled values. -/
theorem bytesLt_iff_fromBE : ∀ as_ bs_ : List Nat, as_.length = bs_.length →
    (∀ x ∈ as_, x < 256) → (∀ x ∈ bs_, x < 256) →
    (bytesLt as_ bs_ = true ↔ fromBE as_ < fromBE bs_)
  | [], [], _, _, _ => by simp [bytesLt, fromBE]
  | [], _ :: _, h, _, _ => by simp at h
  | _ :: _, [], h, _, _ => by simp at h
  | a :: as_, b :: bs_, h, ha, hb => by
    have hlen : as_.length = bs_.length := by simpa using h
    have ha2 : ∀ x ∈ as_, x < 256 := fun x hx => ha x (List.mem_cons_of_mem _ hx)
    have hb2 : ∀ x ∈ bs_, x < 256 := fun x hx => hb x (List.mem_cons_of_mem _ hx)
    have ihres := bytesLt_iff_fromBE as_ bs_ hlen ha2 hb2
    have hXa := fromBE_lt as_ ha2
    have hXb := fromBE_lt bs_ hb2
    rw [fromBE_cons, fromBE_cons, hlen]
    simp only [bytesLt, Bool.or_eq_true, Bool.and_eq_true, decide_eq_true_eq]
    rw [hlen] at hXa
    constructor
    · rintro (hab | ⟨rfl, hlt⟩)
      · calc a * 256 ^ bs_.length + fromBE as_
            < a * 256 ^ bs_.length + 256 ^ bs_.length := Nat.add_lt_add_left hXa _
          _ = (a + 1) * 256 ^ bs_.length := by ring
          _ ≤ b * 256 ^ bs_.length := Nat.mul_le_mul_right _ (by omega)
          _ ≤ b * 256 ^ bs_.length + fromBE bs_ := Nat.le_add_right _ _
      · exact Nat.add_lt_add_left (ihres.mp hlt) _
    · intro hnum
      rcases Nat.lt_trichotomy a b with hab | rfl | hab
      · exact Or.inl hab
      · exact Or.inr ⟨rfl, ihres.mpr (Nat.lt_of_add_lt_add_left hnum)⟩
      · exfalso
        have hrev : b * 256 ^ bs_.length + fromBE bs_
            < a * 256 ^ bs_.length + fromBE as_ :=
          calc b * 256 ^ bs_.length + fromBE bs_
              < b * 256 ^ bs_.length + 256 ^ bs_.length := Nat.add_lt_add_left hXb _
            _ = (b + 1) * 256 ^ bs_.length := by ring
            _ ≤ a * 256 ^ bs_.length := Nat.mul_le_mul_right _ (by omega)
            _ ≤ a * 256 ^ bs_.length + fromBE as_ := Nat.le_add_right _ _
        exact Nat.lt_asymm hnum hrev

/-- Every serialized key byte is below 256. -/
theorem entityKeyKey_bytes_lt (i : Nat) : ∀ x ∈ entityKeyKey i, x < 256 := by
  intro x hx
  simp only [entityKeyKey, List.mem_cons, List.not_mem_nil, or_false] at hx
  rcases hx with rfl | rfl | rfl | rfl | rfl | rfl | rfl | rfl <;> omega

/-- Reassembling the 8 big-endian key bytes recovers the ID. -/
theorem fromBE_entityKeyKey (i : Nat) (h : i < 2 ^ 64) :
    fromBE (entityKeyKey i) = i := by
  simp only [fromBE, entityKeyKey, List.foldl]
  omega

/-- C7: for IDs in the `uint64` domain, `EntityKey.Key` is the 8-byte
big-endian encoding, `fromKey` recovers the ID from it, and
byte-lexicographic comparison of two serialized keys agrees with
numeric comparison of the IDs. -/
theorem entityKey_roundtrip_and_order (i j : Nat) (hi : i < 2 ^ 64)
    (hj : j < 2 ^ 64) :
    (entityKeyKey i).length = 8
    ∧ entityKeyFromKey (entityKeyKey i) = Except.ok i
    ∧ (bytesLt (entityKeyKey i) (entityKeyKey j) = true ↔ i < j) := by
  refine ⟨rfl, ?rt, ?ord⟩
  case rt =>
    have hfull : readFull 8 (entityKeyKey i)
        = (none, entityKeyKey i, []) := by
      simp [readFull, entityKeyKey]
    simp [entityKeyFromKey, hfull, fromBE_entityKeyKey i hi]
  case ord =>
    have hiff := bytesLt_iff_fromBE (entityKeyKey i) (entityKeyKey j) rfl
      (entityKeyKey_bytes_lt i) (entityKeyKey_bytes_lt j)
    rw [fromBE_entityKeyKey i hi, fromBE_entityKeyKey j hj] at hiff
    exact hiff

/-- Witness for C7 at the concrete IDs 1 and 5. -/
theorem entityKey_roundtrip_and_order_witness :
    entityKeyFromKey (entityKeyKey 1) = Except.ok 1
    ∧ (bytesLt (entityKeyKey 1) (entityKeyKey 5) = true ↔ 1 < 5) :=
  ⟨(entityKey_roundtrip_and_order 1 5 (by omega) (by omega)).2.1,
   (entityKey_roundtrip_and_order 1 5 (by omega) (by omega)).2.2⟩

/-! ## Name-rule lemmas -/

/-- The tail matcher accepts exactly the lists that end in a lowercase
alphanumeric character with all earlier characters interior. -/
theorem matchTail_iff (l : List Char) :
    matchTail l = true ↔
      ∃ mid c2, l = mid ++ [c2] ∧ (∀ c ∈ mid, isInteriorChar c = true)
        ∧ isLowerAlnum c2 = true := by
  induction l with
  | nil =>
    simp only [matchTail]
    constructor
    · intro h; cases h
    · rintro ⟨mid, c2, heq, -, -⟩
      exact absurd heq.symm (List.append_ne_nil_of_right_ne_nil mid (by simp))
  | cons c rest ih =>
    cases rest with
    | nil =>
      simp only [matchTail]
      constructor
      · intro h; exact ⟨[], c, rfl, by simp, h⟩
      · rintro ⟨mid, c2, heq, hmid, hc2⟩
        cases mid with
        | nil =>
          simp only [List.nil_append] at heq
          injection heq with h1 h2
          subst h1
          exact hc2
        | cons m ms =>
          simp only [List.cons_append] at heq
          injection heq with h1 h2
          exact absurd h2.symm (List.append_ne_nil_of_right_ne_nil ms (by simp))
    | cons r1 rest2 =>
      show (isInteriorChar c && matchTail (r1 :: rest2)) = true ↔ _
      rw [Bool.and_eq_true, ih]
      constructor
      · rintro ⟨hc, mid, c2, heq, hmid, hc2⟩
        refine ⟨c :: mid, c2, by rw [List.cons_append, heq], ?_, hc2⟩
        intro x hx
        rcases List.mem_cons.mp hx with rfl | hx2
        · exact hc
        · exact hmid x hx2
      · rintro ⟨mid, c2, heq, hmid, hc2⟩
        cases mid with
        | nil =>
          simp only [List.nil_append] at heq
          injection heq with h1 h2
          cases h2
        | cons m ms =>
          simp only [List.cons_append] at heq
          injection heq with h1 h2
          subst h1
          refine ⟨hmid c (List.mem_cons_self _ _), ms, c2, h2, ?_, hc2⟩
          exact fun x hx => hmid x (List.mem_cons_of_mem _ hx)

/-- C8: the compiled name regular expression accepts exactly the names
described by the spec's naming rule (at least two characters, lowercase
alphanumeric first and last characters, interior characters also
allowing hyphen and underscore), and the documented examples behave as
claimed through the exported constructors. -/
theorem nameRule_characterization :
    (∀ s : String, nameRegexpMatchString s = true ↔ SpecValidName s)
    ∧ nameRegexpMatchString "ab" = true
    ∧ nameRegexpMatchString "a1-b_2" = true
    ∧ nameRegexpMatchString "" = false
    ∧ nameRegexpMatchString "A" = false
    ∧ nameRegexpMatchString "-ab" = false
    ∧ nameRegexpMatchString "ab-" = false
    ∧ nameRegexpMatchString "a" = false
    ∧ newNamespace "ab" = Except.ok ⟨"ab", []⟩
    ∧ newEntityTypeDefn "ab" = Except.ok ⟨0, "ab", []⟩
    ∧ (addField ⟨0, "et", []⟩ "ab" FieldType.bool).1 = none
    ∧ newNamespace "" = Except.error GoErr.nameEmpty
    ∧ newNamespace "-ab" = Except.error GoErr.nameInvalid
    ∧ newEntityTypeDefn "A" = Except.error GoErr.nameInvalid
    ∧ (addField ⟨0, "et", []⟩ "a" FieldType.bool).1 = some GoErr.nameInvalid := by
  refine ⟨?chr, by rfl, by rfl, by rfl, by rfl, by rfl, by rfl, by rfl,
    by rfl, by rfl, by rfl, by rfl, by rfl, by rfl, by rfl⟩
  intro s
  unfold nameRegexpMatchString SpecValidName
  rcases hs : s.data with - | ⟨c, rest⟩
  · show (false = true) ↔ _
    constructor
    · intro h; cases h
    · rintro ⟨c1, mid, c2, heq, -⟩
      cases heq
  · cases rest with
    | nil =>
      show (false = true) ↔ _
      constructor
      · intro h; cases h
      · rintro ⟨c1, mid, c2, heq, -, -, -⟩
        injection heq with h1 h2
        cases mid with
        | nil => cases h2
        | cons m ms =>
          simp only [List.cons_append] at h2
          cases h2
    | cons r1 rest2 =>
      show (isLowerAlnum c && matchTail (r1 :: rest2)) = true ↔ _
      rw [Bool.and_eq_true, matchTail_iff]
      constructor
      · rintro ⟨hc, mid, c2, heq, hmid, hc2⟩
        exact ⟨c, mid, c2, by rw [heq], hc, hc2, hmid⟩
      · rintro ⟨c1, mid, c2, heq, hc1, hc2, hmid⟩
        injection heq with h1 h2
        subst h1
        exact ⟨hc1, mid, c2, h2, hmid, hc2⟩

/-- C9 counterexample: with an environment in which the store opens
successfully, `InitDB ""` answers `ErrPathEmpty` without recording it
in `dberr`, and the next `DbInstance` call answers success — not the
same error. -/
theorem initDB_pathEmpty_not_cached :
    InitDB ⟨none, none, none⟩ "" ⟨"", none, false⟩
      = (some GoErr.pathEmpty, ⟨"", none, false⟩)
    ∧ (DbInstance ⟨none, none, none⟩ ⟨"", none, false⟩).1 = none :=
  ⟨rfl, rfl⟩

/-- C9 (amended): `InitDB` answers `ErrPathEmpty` (empty path) and
`ErrPathNotAbsolute` (relative path) directly, without recording them
in `dberr`; for a valid path it records the `initDB` outcome in
`dberr` and returns it; and once the one-time `instance` open has run,
every later `DbInstance` call returns the recorded `dberr` unchanged,
without retrying initialisation. -/
theorem storage_error_caching_amended (env : StorageEnv) (s : StorageState) :
    (InitDB env "" s = (some GoErr.pathEmpty, s))
    ∧ (∀ p, p ≠ "" → pathIsAbs p = false →
        InitDB env p s = (some GoErr.pathNotAbsolute, s))
    ∧ (∀ p, p ≠ "" → pathIsAbs p = true →
        InitDB env p s
          = ((initDBBody env ⟨p, s.dberr, s.onceDone⟩).dberr,
             initDBBody env ⟨p, s.dberr, s.onceDone⟩))
    ∧ (∀ s2 : StorageState, s2.onceDone = true →
        DbInstance env s2 = (s2.dberr, s2)) := by
  refine ⟨rfl, ?rel, ?abs, ?cached⟩
  case rel =>
    intro p hp habs
    simp [InitDB, hp, habs]
  case abs =>
    intro p hp habs
    simp [InitDB, hp, habs]
  case cached =>
    intro s2 h2
    simp [DbInstance, h2]

/-- Witness for C9 at a concrete failing-open environment. -/
theorem storage_error_caching_amended_witness :
    InitDB ⟨none, some (GoErr.envErr 3), none⟩ "/data" ⟨"", none, false⟩
      = (some (GoErr.envErr 3), ⟨"/data", some (GoErr.envErr 3), false⟩)
    ∧ DbInstance ⟨none, some (GoErr.envErr 3), none⟩
        ⟨"/data", some (GoErr.envErr 3), true⟩
      = (some (GoErr.envErr 3), ⟨"/data", some (GoErr.envErr 3), true⟩) := by
  constructor
  · have h := (storage_error_caching_amended ⟨none, some (GoErr.envErr 3), none⟩
      ⟨"", none, false⟩).2.2.1 "/data" (by decide) (by rfl)
    simpa [initDBBody] using h
  · exact (storage_error_caching_amended ⟨none, some (GoErr.envErr 3), none⟩
      ⟨"", none, false⟩).2.2.2 ⟨"/data", some (GoErr.envErr 3), true⟩ rfl

/-- Witness for C8: the characterization applied at a concrete name. -/
theorem nameRule_characterization_witness : SpecValidName "ab" :=
  (nameRule_characterization.1 "ab").mp (by rfl)
